import Mathlib

/-!
# Verification of the `AccountManager` record store (`src/main.py`)

Shallow embedding of the core operations of the personal-finance ledger:
rows are four-field CSV records, the store is the ordered list of rows,
and each Python method becomes a Lean function over that list.  Fallible
operations (Python exceptions) return `Option`.  Python `float` values are
modelled as rationals (`ℚ`); Python `int` as `Int`/`Nat`.
-/

namespace FinanceLedger

/-- One persisted CSV row, as produced by `csv.reader`: four textual fields
in column order `date, category, amount, description`.  (`add_transaction`
and the interactive shell always write exactly four columns.) -/
structure Row where
  date : String
  category : String
  amount : String
  description : String
deriving DecidableEq, Repr

/-! ## Regex models

`DATE_PATTERN = \d{4}-(0[1-9]|1[0-2])-(0[1-9]|[12]\d|3[01])`, used via
`re.match`, i.e. anchored at the start of the string only.  `\d` is modelled
as an ASCII digit (Python's `\d` also accepts other Unicode decimal digits;
none of the claims involve non-ASCII input).

`AMOUNT_PATTERN = ^\d+$`, used via `re.match`.  Python's `$` matches at the
end of the string *or just before a newline at the end of the string*, so a
single trailing `'\n'` after the digits is accepted by the pattern. -/

/-- `re.match(DATE_PATTERN, s)` succeeds: the first ten characters are
`dddd-MM-DD` with month `01..12` and day `01..31`; anything may follow
(the pattern is not anchored at the end). -/
def dateMatchL : List Char → Bool
  | y1 :: y2 :: y3 :: y4 :: h1 :: m1 :: m2 :: h2 :: d1 :: d2 :: _ =>
    y1.isDigit && y2.isDigit && y3.isDigit && y4.isDigit && h1 = '-' &&
    ((m1 = '0' && '1' ≤ m2 && m2 ≤ '9') || (m1 = '1' && '0' ≤ m2 && m2 ≤ '2')) &&
    h2 = '-' &&
    ((d1 = '0' && '1' ≤ d2 && d2 ≤ '9') ||
     ((d1 = '1' || d1 = '2') && d2.isDigit) ||
     (d1 = '3' && (d2 = '0' || d2 = '1')))
  | _ => false

/-- The date-validation predicate of `check_date_input`:
`DATE_PATTERN.match(date_input)` is truthy. -/
def dateMatch (s : String) : Bool := dateMatchL s.data

/-- `re.match(AMOUNT_PATTERN, s)` succeeds: one or more digits spanning the
whole string, except that `$` also matches just before a trailing newline.
The greedy `\d+` is equivalent to maximal munch here, because after taking
fewer digits the next character is a digit, which `$` never matches. -/
def amountMatch (s : String) : Bool :=
  let ds := s.data.takeWhile Char.isDigit
  let rest := s.data.dropWhile Char.isDigit
  !ds.isEmpty && (rest.isEmpty || rest == ['\n'])

/-! ## Store state and operations

The abstract state of the backing store is the ordered list of its rows;
CSV serialisation details below the row level (delimiter quoting) are not
modelled.  `load_transactions` returns the store contents,
`save_transactions` replaces them, so an operation that loads, mutates and
saves is a function `List Row → Option (List Row)`, `none` standing for a
Python exception raised before the save. -/

/-- Effective index of a Python sequence subscript: a negative index has
the sequence length added to it before the bounds check. -/
def pyIndex (n : Nat) (i : Int) : Int :=
  if i < 0 then i + n else i

/-- Python list item assignment `xs[i] = v`: a negative index counts from
the end of the list; an index out of range (after that adjustment) raises
`IndexError`, modelled as `none`. -/
def pySetItem {α : Type} (xs : List α) (i : Int) (v : α) : Option (List α) :=
  if 0 ≤ pyIndex xs.length i ∧ pyIndex xs.length i < xs.length then
    some (xs.set (pyIndex xs.length i).toNat v)
  else none

/-- `AccountManager.load_transactions`: returns the full ordered sequence
of stored rows. -/
def load_transactions (rows : List Row) : List Row := rows

/-- `AccountManager.edit_transaction`: loads the store, runs
`transactions[transaction_index - 1] = new_transaction_data`, and saves.
An `IndexError` aborts before the save, leaving the store unchanged. -/
def edit_transaction (rows : List Row) (transaction_index : Int)
    (new_transaction_data : Row) : Option (List Row) :=
  pySetItem rows (transaction_index - 1) new_transaction_data

/-- A `Transaction` as built by the interactive shell before calling
`add_transaction`: the amount is the `int` returned by
`check_amount_input`, hence a natural number. -/
structure Transaction where
  date : String
  category : String
  amount : Nat
  description : String

/-- Decimal digit character (`0`–`9`) for a digit value `d < 10`. -/
def digitChar (d : Nat) : Char := Char.ofNat (48 + d)

/-- Python `str` on a non-negative `int`: its decimal digit string,
most significant digit first (`Nat.digits` is least significant first). -/
def strOfNat (n : Nat) : String :=
  if n = 0 then "0" else String.mk (((Nat.digits 10 n).map digitChar).reverse)

/-- The CSV row that `csv.writer.writerow` produces in
`AccountManager.add_transaction`: the four attributes in order, the integer
amount rendered with `str`. -/
def transactionRow (t : Transaction) : Row :=
  ⟨t.date, t.category, strOfNat t.amount, t.description⟩

/-- `AccountManager.add_transaction`: opens the file in append mode and
writes the one row for the given transaction after the existing contents. -/
def add_transaction (rows : List Row) (t : Transaction) : List Row :=
  rows ++ [transactionRow t]

/-- Inner loop of `AccountManager.search_transactions`: `match` starts as
`True`; each criteria pair whose key is `"date"`, `"category"` or
`"amount"` and whose value differs from the corresponding field sets it to
`False` and breaks; pairs with any other key leave `match` untouched. -/
def matchRow (transaction : Row) : List (String × String) → Bool
  | [] => true
  | (key, value) :: rest =>
    if key = "date" ∧ transaction.date ≠ value then false
    else if key = "category" ∧ transaction.category ≠ value then false
    else if key = "amount" ∧ transaction.amount ≠ value then false
    else matchRow transaction rest

/-- `AccountManager.search_transactions`: loads the store and returns, in
order, the rows passing the criteria check.  The Python function always
returns the accumulated `result` list, never `None`. -/
def search_transactions (rows : List Row)
    (criteria : List (String × String)) : List Row :=
  (load_transactions rows).filter (fun t => matchRow t criteria)

/-- Numeric value of a most-significant-first block of digit characters. -/
def decValue (cs : List Char) : Nat :=
  cs.foldl (fun a c => 10 * a + (c.toNat - 48)) 0

/-- Optional leading sign of a Python numeric literal: strips one `-` or
`+` and reports whether the value is negated. -/
def splitSign (cs : List Char) : Bool × List Char :=
  match cs with
  | c :: rest =>
    if c = '-' then (true, rest)
    else if c = '+' then (false, rest)
    else (false, cs)
  | [] => (false, cs)

/-- Python `float(s)` on the numeric-literal core
`[sign] (digits [. digits] | . digits) [(e|E) [sign] digits]`, returning
the exact rational value of the literal; `none` models `ValueError`.
(Surrounding whitespace, `_` digit separators and `inf`/`nan` do not occur
in this development's inputs and are not modelled; IEEE rounding of the
resulting value is modelled exactly, by a rational.) -/
def pyFloat (s : String) : Option ℚ :=
  let sign := splitSign s.data
  let intDs := sign.2.takeWhile Char.isDigit
  let rest := sign.2.dropWhile Char.isDigit
  let frac : List Char × List Char :=
    match rest with
    | c :: r =>
      if c = '.' then (r.takeWhile Char.isDigit, r.dropWhile Char.isDigit)
      else ([], rest)
    | [] => ([], rest)
  if intDs.isEmpty ∧ frac.1.isEmpty then none
  else
    let mant : ℚ :=
      (decValue intDs : ℚ) + (decValue frac.1 : ℚ) / ((10 : ℚ) ^ frac.1.length)
    let signed : ℚ := if sign.1 then -mant else mant
    match frac.2 with
    | [] => some signed
    | e :: r =>
      if e = 'e' ∨ e = 'E' then
        let esign := splitSign r
        let expDs := esign.2.takeWhile Char.isDigit
        let tail := esign.2.dropWhile Char.isDigit
        if expDs.isEmpty = false ∧ tail.isEmpty then
          let ex : Int :=
            if esign.1 then -(decValue expDs : Int) else (decValue expDs : Int)
          some (signed * (10 : ℚ) ^ ex)
        else none
      else none

/-- The loop body of `AccountManager.show_balance`: for every row, Python
first evaluates `float(transaction[2])` — raising `ValueError` on
unparseable text, whatever the row's category is — and only then compares
the category: `"Доход"` (income) adds the amount, `"Расход"` (expense)
subtracts it, anything else leaves the balance unchanged. -/
def show_balance_loop (balance : ℚ) : List Row → Option ℚ
  | [] => some balance
  | t :: rest =>
    match pyFloat t.amount with
    | none => none
    | some amount =>
      if t.category = "Доход" then show_balance_loop (balance + amount) rest
      else if t.category = "Расход" then show_balance_loop (balance - amount) rest
      else show_balance_loop balance rest

/-- `AccountManager.show_balance`: loads the store and folds the balance
loop from `0`. -/
def show_balance (rows : List Row) : Option ℚ :=
  show_balance_loop 0 (load_transactions rows)

/-- Amount of a row as the aggregation paths read it (`0` if unparseable;
only used under a hypothesis that parsing succeeds). -/
def rowAmount (r : Row) : ℚ := (pyFloat r.amount).getD 0

/-- Total parsed amount of the income rows, in stored order. -/
def incomeSum (rows : List Row) : ℚ :=
  ((rows.filter (fun r => r.category = "Доход")).map rowAmount).sum

/-- Total parsed amount of the expense rows, in stored order. -/
def expenseSum (rows : List Row) : ℚ :=
  ((rows.filter (fun r => r.category = "Расход")).map rowAmount).sum

/-- Sample income row used to instantiate universally quantified
theorems. -/
def sampleIncome : Row := ⟨"2024-05-01", "Доход", "1000", "salary"⟩

/-- Sample expense row used to instantiate universally quantified
theorems. -/
def sampleExpense : Row := ⟨"2024-05-02", "Расход", "500", "food"⟩

/-- Sample row with an unrecognised category, parseable amount. -/
def sampleOther : Row := ⟨"2024-05-03", "Прочее", "7", "misc"⟩

/-- `takeWhile` walks through a block of elements that all satisfy `p`. -/
theorem takeWhile_append_all (p : Char → Bool) (ds rest : List Char)
    (h : ∀ c ∈ ds, p c = true) :
    (ds ++ rest).takeWhile p = ds ++ rest.takeWhile p := by
  induction ds with
  | nil => simp
  | cons a t ih =>
    have ha : p a = true := h a (List.mem_cons_self a t)
    have ih' := ih (fun c hc => h c (List.mem_cons_of_mem a hc))
    simp [List.takeWhile_cons, ha, ih']

/-- `dropWhile` discards a block of elements that all satisfy `p`. -/
theorem dropWhile_append_all (p : Char → Bool) (ds rest : List Char)
    (h : ∀ c ∈ ds, p c = true) :
    (ds ++ rest).dropWhile p = rest.dropWhile p := by
  induction ds with
  | nil => simp
  | cons a t ih =>
    have ha : p a = true := h a (List.mem_cons_self a t)
    have ih' := ih (fun c hc => h c (List.mem_cons_of_mem a hc))
    simp [List.dropWhile_cons, ha, ih']

/-- A string accepted by `DATE_PATTERN` via `re.match` stays accepted when
characters are appended: the pattern only constrains the first ten
characters. -/
theorem dateMatchL_append (l r : List Char) (h : dateMatchL l = true) :
    dateMatchL (l ++ r) = true := by
  match l, h with
  | [], h => exact Bool.noConfusion h
  | [_], h => exact Bool.noConfusion h
  | [_, _], h => exact Bool.noConfusion h
  | [_, _, _], h => exact Bool.noConfusion h
  | [_, _, _, _], h => exact Bool.noConfusion h
  | [_, _, _, _, _], h => exact Bool.noConfusion h
  | [_, _, _, _, _, _], h => exact Bool.noConfusion h
  | [_, _, _, _, _, _, _], h => exact Bool.noConfusion h
  | [_, _, _, _, _, _, _, _], h => exact Bool.noConfusion h
  | [_, _, _, _, _, _, _, _, _], h => exact Bool.noConfusion h
  | y1 :: y2 :: y3 :: y4 :: h1 :: m1 :: m2 :: h2 :: d1 :: d2 :: rest, h => exact h

/-- The character of a digit value below ten has that value as a digit and
is recognised by `Char.isDigit`. -/
theorem digitChar_spec :
    ∀ d : Nat, d < 10 →
      (digitChar d).toNat = 48 + d ∧ (digitChar d).isDigit = true := by
  decide

/-- Appending one digit character multiplies the accumulated value by ten
and adds the digit. -/
theorem decValue_append_digit (cs : List Char) (c : Char) :
    decValue (cs ++ [c]) = 10 * decValue cs + (c.toNat - 48) := by
  simp [decValue]

/-- Reading a most-significant-first rendering of a little-endian digit
list recovers its value. -/
theorem decValue_rev_map (ds : List Nat) :
    (∀ d ∈ ds, d < 10) →
    decValue ((ds.map digitChar).reverse) = Nat.ofDigits 10 ds := by
  induction ds with
  | nil => intro _; simp [decValue, Nat.ofDigits_nil]
  | cons d ds ih =>
    intro h
    have hd : d < 10 := h d (List.mem_cons_self d ds)
    have ih' := ih (fun x hx => h x (List.mem_cons_of_mem d hx))
    rw [List.map_cons, List.reverse_cons, decValue_append_digit, ih',
      Nat.ofDigits_cons, (digitChar_spec d hd).1]
    omega

/-- Reading back the most-significant-first digit characters of `n`
recovers `n`. -/
theorem decValue_digits (n : Nat) :
    decValue (((Nat.digits 10 n).map digitChar).reverse) = n := by
  rw [decValue_rev_map (Nat.digits 10 n)
    (fun d hd => Nat.digits_lt_base (by norm_num) hd), Nat.ofDigits_digits]

/-- A list of digit characters carries no sign for `splitSign` to strip. -/
theorem splitSign_no_sign (cs : List Char) (h : ∀ c ∈ cs, c.isDigit = true) :
    splitSign cs = (false, cs) := by
  cases cs with
  | nil => rfl
  | cons c r =>
    have hc : c.isDigit = true := h c (List.mem_cons_self c r)
    have h1 : c ≠ '-' := by rintro rfl; exact absurd hc (by decide)
    have h2 : c ≠ '+' := by rintro rfl; exact absurd hc (by decide)
    simp [splitSign, h1, h2]

/-- `float` on a non-empty string of digit characters returns the decimal
value of those digits. -/
theorem pyFloat_digits (cs : List Char) (hne : cs ≠ [])
    (h : ∀ c ∈ cs, c.isDigit = true) :
    pyFloat (String.mk cs) = some ((decValue cs : ℚ)) := by
  have hs : splitSign cs = (false, cs) := splitSign_no_sign cs h
  have ht : cs.takeWhile Char.isDigit = cs := List.takeWhile_eq_self_iff.mpr h
  have hd : cs.dropWhile Char.isDigit = [] := List.dropWhile_eq_nil_iff.mpr h
  have hdata : (String.mk cs).data = cs := rfl
  simp [pyFloat, hdata, hs, ht, hd, hne, decValue]

/-- `float ∘ str` on a non-negative Python `int` is the identity (as a
rational value). -/
theorem pyFloat_strOfNat (n : Nat) : pyFloat (strOfNat n) = some ((n : ℚ)) := by
  by_cases h0 : n = 0
  · subst h0
    have h := pyFloat_digits ['0'] (by decide) (by decide)
    have hv : decValue ['0'] = 0 := by decide
    rw [hv] at h
    simpa [strOfNat] using h
  · rw [strOfNat, if_neg h0]
    have hne : ((Nat.digits 10 n).map digitChar).reverse ≠ [] := by
      simp [Nat.digits_ne_nil_iff_ne_zero.mpr h0]
    have hdig : ∀ c ∈ ((Nat.digits 10 n).map digitChar).reverse,
        c.isDigit = true := by
      intro c hc
      rw [List.mem_reverse] at hc
      obtain ⟨d, hd, rfl⟩ := List.mem_map.mp hc
      exact (digitChar_spec d (Nat.digits_lt_base (by norm_num) hd)).2
    rw [pyFloat_digits _ hne hdig, decValue_digits n]

end FinanceLedger

namespace FinanceLedger

/-- C8: the date-validation predicate (matching `DATE_PATTERN`, as used by
`check_date_input`) accepts "2024-01-01" and "2024-12-31" and rejects
"2024-13-01", "2024-00-15" and "24-05-04". -/
theorem dateMatch_boundary_strings :
    dateMatch "2024-01-01" = true ∧ dateMatch "2024-12-31" = true ∧
    dateMatch "2024-13-01" = false ∧ dateMatch "2024-00-15" = false ∧
    dateMatch "24-05-04" = false := by
  decide

/-- C9 counterexample: the amount pattern `^\d+$` under Python `re.match`
also accepts a digit string followed by one trailing newline, because `$`
matches just before a newline at the end of the string.  So "accepts iff
non-empty and digit-only" fails at the input `"123\n"`. -/
theorem amountMatch_newline_counterexample :
    amountMatch "123\n" = true ∧ ("123\n").data.all Char.isDigit = false := by
  decide

/-- C9 (amended): the amount-validation predicate accepts exactly the
non-empty digit-only strings and the non-empty digit-only strings followed
by a single trailing newline; in particular "1000" is accepted while
"-100", "12.5" and "" are rejected. -/
theorem amountMatch_characterisation :
    (∀ s : String, amountMatch s = true ↔
      (s.data ≠ [] ∧ s.data.all Char.isDigit = true) ∨
      (∃ ds : List Char, ds ≠ [] ∧ ds.all Char.isDigit = true ∧
        s.data = ds ++ ['\n'])) ∧
    amountMatch "1000" = true ∧ amountMatch "-100" = false ∧
    amountMatch "12.5" = false ∧ amountMatch "" = false := by
  refine ⟨fun s => ?_, by decide, by decide, by decide, by decide⟩
  constructor
  · intro h
    simp only [amountMatch, Bool.and_eq_true, Bool.not_eq_true', Bool.or_eq_true,
      List.isEmpty_iff, beq_iff_eq] at h
    obtain ⟨ht, hd⟩ := h
    have ht' : s.data.takeWhile Char.isDigit ≠ [] := by simpa using ht
    have hsplit : s.data.takeWhile Char.isDigit ++ s.data.dropWhile Char.isDigit
        = s.data := List.takeWhile_append_dropWhile Char.isDigit s.data
    have hall : (s.data.takeWhile Char.isDigit).all Char.isDigit = true :=
      List.all_eq_true.mpr fun c hc => List.mem_takeWhile_imp hc
    rcases hd with hd | hd
    · left
      have hts : s.data.takeWhile Char.isDigit = s.data := by
        rw [hd, List.append_nil] at hsplit
        exact hsplit
      rw [← hts]
      exact ⟨ht', hall⟩
    · right
      exact ⟨s.data.takeWhile Char.isDigit, ht', hall, (hd ▸ hsplit).symm⟩
  · intro h
    have hnl : Char.isDigit '\n' = false := by decide
    rcases h with ⟨hne, hall⟩ | ⟨ds, hne, hall, heq⟩
    · have hall' : ∀ c ∈ s.data, Char.isDigit c = true := List.all_eq_true.mp hall
      simp [amountMatch, List.takeWhile_eq_self_iff.mpr hall',
        List.dropWhile_eq_nil_iff.mpr hall', hne]
    · have hall' : ∀ c ∈ ds, Char.isDigit c = true := List.all_eq_true.mp hall
      simp [amountMatch, heq, takeWhile_append_all Char.isDigit ds ['\n'] hall',
        dropWhile_append_all Char.isDigit ds ['\n'] hall', List.takeWhile_cons,
        List.dropWhile_cons, hnl, hne]

/-- C10: the date pattern is anchored only at the start, so any string that
extends an accepted string is itself accepted; in particular
"2024-05-04abc" and "2024-05-0499" pass the date check. -/
theorem dateMatch_ignores_trailing_characters :
    (∀ p s : String, dateMatch p = true → dateMatch (p ++ s) = true) ∧
    dateMatch "2024-05-04abc" = true ∧ dateMatch "2024-05-0499" = true := by
  refine ⟨fun p s h => ?_, by decide, by decide⟩
  have : (p ++ s).data = p.data ++ s.data := by
    simp [String.data_append]
  rw [dateMatch, this]
  exact dateMatchL_append p.data s.data h

/-- C10 witness: applying the prefix-closure at a concrete accepted date
and concrete trailing garbage. -/
theorem dateMatch_ignores_trailing_characters_witness :
    dateMatch ("2024-05-04" ++ "zz") = true :=
  dateMatch_ignores_trailing_characters.1 "2024-05-04" "zz" (by decide)

/-- C1 counterexample: on a one-record store, editing position `0` does not
fail — `transactions[0 - 1]` is Python negative indexing, so the last (and
only) record is silently replaced and saved. -/
theorem edit_position_zero_counterexample :
    edit_transaction [sampleIncome] 0 sampleExpense = some [sampleExpense] := by
  decide

/-- C1 (amended): editing position `N+1` on an `N`-record store fails with
an index error before anything is saved, and editing position `0` fails
only on an empty store; on a non-empty store position `0` is Python
negative indexing and silently replaces the last record. -/
theorem edit_out_of_range (rows : List Row) (new : Row) :
    edit_transaction rows ((rows.length : Int) + 1) new = none ∧
    (rows = [] → edit_transaction rows 0 new = none) ∧
    (rows ≠ [] → edit_transaction rows 0 new
        = some (rows.set (rows.length - 1) new)) := by
  refine ⟨?_, ?_, ?_⟩
  · simp only [edit_transaction, pySetItem, pyIndex]
    split_ifs <;> first | rfl | (exfalso; omega)
  · intro h
    subst h
    rfl
  · intro h
    have hlen : 1 ≤ rows.length := by
      cases rows with
      | nil => exact absurd rfl h
      | cons a t => simp
    simp only [edit_transaction, pySetItem, pyIndex]
    rw [if_pos (by omega : (0 : Int) - 1 < 0)]
    rw [if_pos (by constructor <;> omega)]
    have hto : ((0 : Int) - 1 + (rows.length : Int)).toNat = rows.length - 1 := by
      omega
    rw [hto]

/-- C1 witness: the out-of-range behaviour instantiated on a one-record
store — position `2` fails, position `0` silently replaces the record. -/
theorem edit_out_of_range_witness :
    edit_transaction [sampleIncome] (([sampleIncome] : List Row).length + 1)
        sampleExpense = none ∧
    edit_transaction [sampleIncome] 0 sampleExpense
        = some ([sampleIncome].set (([sampleIncome] : List Row).length - 1)
            sampleExpense) :=
  ⟨(edit_out_of_range [sampleIncome] sampleExpense).1,
   (edit_out_of_range [sampleIncome] sampleExpense).2.2 (by decide)⟩

/-- C4: for a 1-based position `p` with `1 ≤ p ≤ N`, editing succeeds and
the loaded result has exactly `N` records, the record at position `p` is
the new one, and every other position holds the same record as before
(in particular the relative order is unchanged). -/
theorem edit_in_range (rows : List Row) (p : Nat) (new : Row)
    (h1 : 1 ≤ p) (h2 : p ≤ rows.length) :
    ∃ rows2, edit_transaction rows ((p : Nat) : Int) new = some rows2 ∧
      load_transactions rows2 = rows2 ∧
      rows2.length = rows.length ∧
      rows2[p - 1]? = some new ∧
      ∀ i : Nat, i ≠ p - 1 → rows2[i]? = rows[i]? := by
  refine ⟨rows.set (p - 1) new, ?_, rfl, List.length_set rows _ _, ?_, ?_⟩
  · simp only [edit_transaction, pySetItem, pyIndex]
    rw [if_neg (by omega : ¬ ((p : Int) - 1 < 0))]
    rw [if_pos (by constructor <;> omega)]
    have hto : ((p : Int) - 1).toNat = p - 1 := by omega
    rw [hto]
  · have hlt : p - 1 < rows.length := by omega
    simp [List.getElem?_set_self, hlt]
  · intro i hi
    simp [List.getElem?_set_ne, Ne.symm hi]

/-- C4 witness: editing position 2 of a two-record store. -/
theorem edit_in_range_witness :
    ∃ rows2,
      edit_transaction [sampleIncome, sampleExpense] (((2 : Nat) : Nat) : Int)
          sampleOther = some rows2 ∧
      load_transactions rows2 = rows2 ∧
      rows2.length = ([sampleIncome, sampleExpense] : List Row).length ∧
      rows2[2 - 1]? = some sampleOther ∧
      ∀ i : Nat, i ≠ 2 - 1 → rows2[i]? = ([sampleIncome, sampleExpense] : List Row)[i]? :=
  edit_in_range [sampleIncome, sampleExpense] 2 sampleOther (by decide) (by decide)

/-- C5: appending a transaction and loading yields the prior records
unchanged plus exactly one extra record at the last position whose four
fields equal the appended inputs, the amount comparing numerically (via
`float` text parsing) to the appended integer amount. -/
theorem add_then_load_round_trip (rows : List Row) (t : Transaction) :
    load_transactions (add_transaction rows t) = rows ++ [transactionRow t] ∧
    (add_transaction rows t).length = rows.length + 1 ∧
    (add_transaction rows t).take rows.length = rows ∧
    (add_transaction rows t).getLast? = some (transactionRow t) ∧
    (transactionRow t).date = t.date ∧
    (transactionRow t).category = t.category ∧
    (transactionRow t).description = t.description ∧
    pyFloat ((transactionRow t).amount) = some ((t.amount : ℚ)) := by
  refine ⟨rfl, by simp [add_transaction], ?_, ?_, rfl, rfl, rfl,
    pyFloat_strOfNat t.amount⟩
  · simp [add_transaction]
  · simp [add_transaction]

/-- Inserting a row whose category is neither income nor expense, and whose
amount still parses, anywhere in the store does not change the balance
loop's outcome from any starting balance. -/
theorem show_balance_loop_skip (r : Row) (h1 : r.category ≠ "Доход")
    (h2 : r.category ≠ "Расход") (h3 : (pyFloat r.amount).isSome = true) :
    ∀ (xs ys : List Row) (bal : ℚ),
      show_balance_loop bal (xs ++ r :: ys) = show_balance_loop bal (xs ++ ys) := by
  intro xs
  induction xs with
  | nil =>
    intro ys bal
    obtain ⟨a, ha⟩ := Option.isSome_iff_exists.mp h3
    simp [show_balance_loop, ha, h1, h2]
  | cons x xs ih =>
    intro ys bal
    simp only [List.cons_append, show_balance_loop, List.append_eq, ih]

/-- The filtered income total gains the head row's amount when the head is
an income row. -/
theorem incomeSum_cons_income (r : Row) (rest : List Row)
    (h : r.category = "Доход") :
    incomeSum (r :: rest) = rowAmount r + incomeSum rest := by
  simp [incomeSum, List.filter_cons, h]

/-- The filtered income total ignores a non-income head row. -/
theorem incomeSum_cons_other (r : Row) (rest : List Row)
    (h : r.category ≠ "Доход") :
    incomeSum (r :: rest) = incomeSum rest := by
  simp [incomeSum, List.filter_cons, h]

/-- The filtered expense total gains the head row's amount when the head is
an expense row. -/
theorem expenseSum_cons_expense (r : Row) (rest : List Row)
    (h : r.category = "Расход") :
    expenseSum (r :: rest) = rowAmount r + expenseSum rest := by
  simp [expenseSum, List.filter_cons, h]

/-- The filtered expense total ignores a non-expense head row. -/
theorem expenseSum_cons_other (r : Row) (rest : List Row)
    (h : r.category ≠ "Расход") :
    expenseSum (r :: rest) = expenseSum rest := by
  simp [expenseSum, List.filter_cons, h]

/-- The balance loop computes, from any start, the start plus the income
total minus the expense total, provided every stored amount parses. -/
theorem show_balance_loop_additive :
    ∀ rows : List Row, (∀ r ∈ rows, (pyFloat r.amount).isSome = true) →
      ∀ bal : ℚ,
        show_balance_loop bal rows = some (bal + incomeSum rows - expenseSum rows) := by
  intro rows
  induction rows with
  | nil => intro _ bal; simp [show_balance_loop, incomeSum, expenseSum]
  | cons r rest ih =>
    intro h bal
    obtain ⟨a, ha⟩ := Option.isSome_iff_exists.mp (h r (List.mem_cons_self r rest))
    have hrest := ih (fun x hx => h x (List.mem_cons_of_mem r hx))
    have hra : rowAmount r = a := by simp [rowAmount, ha]
    simp only [show_balance_loop, ha]
    by_cases hc1 : r.category = "Доход"
    · have hc2 : r.category ≠ "Расход" := by rw [hc1]; decide
      rw [if_pos hc1, hrest (bal + a), incomeSum_cons_income r rest hc1,
        expenseSum_cons_other r rest hc2, hra]
      congr 1
      ring
    · by_cases hc2 : r.category = "Расход"
      · rw [if_neg hc1, if_pos hc2, hrest (bal - a),
          incomeSum_cons_other r rest hc1, expenseSum_cons_expense r rest hc2,
          hra]
        congr 1
        ring
      · rw [if_neg hc1, if_neg hc2, hrest bal, incomeSum_cons_other r rest hc1,
          expenseSum_cons_other r rest hc2]

/-- C2 counterexample: a row whose category is unrecognised but whose
amount text does not parse as a float makes `show_balance` raise
(`float(transaction[2])` runs before the category is inspected), instead of
being skipped silently. -/
theorem show_balance_other_category_counterexample :
    show_balance [⟨"2024-01-01", "Прочее", "abc", "x"⟩] = none := by
  decide

/-- C2 (amended): a row whose category is neither income nor expense
contributes nothing to `show_balance` — provided its amount field still
parses as a float; `float` is applied to every row's amount before the
category test, so an unparseable amount raises even on skipped rows. -/
theorem show_balance_skips_other_categories (xs ys : List Row) (r : Row)
    (h1 : r.category ≠ "Доход") (h2 : r.category ≠ "Расход")
    (h3 : (pyFloat r.amount).isSome = true) :
    show_balance (xs ++ r :: ys) = show_balance (xs ++ ys) :=
  show_balance_loop_skip r h1 h2 h3 xs ys 0

/-- C2 witness: a parseable-but-unrecognised row between an income row and
nothing does not change the balance. -/
theorem show_balance_skips_other_categories_witness :
    show_balance [sampleIncome, sampleOther] = show_balance [sampleIncome] :=
  show_balance_skips_other_categories [sampleIncome] [] sampleOther
    (by decide) (by decide) (by decide)

/-- C6: when every stored amount parses as a float, `show_balance` returns
exactly the income total minus the expense total; rows of any other
category contribute zero. -/
theorem show_balance_category_additive (rows : List Row)
    (h : ∀ r ∈ rows, (pyFloat r.amount).isSome = true) :
    show_balance rows = some (incomeSum rows - expenseSum rows) := by
  have h0 := show_balance_loop_additive rows h 0
  simpa [show_balance, load_transactions] using h0

/-- C6 witness: the balance of a three-row store with an income, an expense
and an unrecognised-category row. -/
theorem show_balance_category_additive_witness :
    show_balance [sampleIncome, sampleExpense, sampleOther]
      = some (incomeSum [sampleIncome, sampleExpense, sampleOther]
              - expenseSum [sampleIncome, sampleExpense, sampleOther]) :=
  show_balance_category_additive [sampleIncome, sampleExpense, sampleOther]
    (by decide)

/-- A criteria pair whose key is not one of the three recognised field
names never changes the match flag. -/
theorem matchRow_unrecognized_cons (t : Row) (k v : String)
    (rest : List (String × String)) (h1 : k ≠ "date") (h2 : k ≠ "category")
    (h3 : k ≠ "amount") :
    matchRow t ((k, v) :: rest) = matchRow t rest := by
  simp [matchRow, h1, h2, h3]

/-- Dropping every pair with a fixed unrecognised key from the criteria
does not change the match flag. -/
theorem matchRow_filter_unrecognized (t : Row) (k : String)
    (h1 : k ≠ "date") (h2 : k ≠ "category") (h3 : k ≠ "amount") :
    ∀ criteria : List (String × String),
      matchRow t (criteria.filter (fun q => q.1 ≠ k)) = matchRow t criteria := by
  intro criteria
  induction criteria with
  | nil => rfl
  | cons q rest ih =>
    obtain ⟨k2, v⟩ := q
    by_cases hk : k2 = k
    · subst hk
      rw [List.filter_cons_of_neg (by simp),
        matchRow_unrecognized_cons t k2 v rest h1 h2 h3]
      exact ih
    · rw [List.filter_cons_of_pos (by simp [hk])]
      simp only [matchRow]
      split_ifs <;> first | rfl | exact ih

/-- A criteria list made only of unrecognised keys matches every row. -/
theorem matchRow_all_unrecognized (t : Row) :
    ∀ criteria : List (String × String),
      (∀ q ∈ criteria, q.1 ≠ "date" ∧ q.1 ≠ "category" ∧ q.1 ≠ "amount") →
      matchRow t criteria = true := by
  intro criteria
  induction criteria with
  | nil => intro _; rfl
  | cons q rest ih =>
    intro h
    obtain ⟨k, v⟩ := q
    obtain ⟨h1, h2, h3⟩ := h (k, v) (List.mem_cons_self _ _)
    rw [matchRow_unrecognized_cons t k v rest h1 h2 h3]
    exact ih (fun p hp => h p (List.mem_cons_of_mem _ hp))

/-- C3: a criteria key outside {date, category, amount} contributes no
filtering condition — the search result equals the result with every pair
carrying that key removed — and a criteria mapping made only of
unrecognised keys returns every record in the store. -/
theorem search_ignores_unrecognized_keys (rows : List Row)
    (criteria : List (String × String)) :
    (∀ k : String, k ≠ "date" → k ≠ "category" → k ≠ "amount" →
      search_transactions rows criteria
        = search_transactions rows (criteria.filter (fun q => q.1 ≠ k))) ∧
    ((∀ q ∈ criteria, q.1 ≠ "date" ∧ q.1 ≠ "category" ∧ q.1 ≠ "amount") →
      search_transactions rows criteria = rows) := by
  constructor
  · intro k h1 h2 h3
    exact (List.filter_congr (fun t _ =>
      matchRow_filter_unrecognized t k h1 h2 h3 criteria)).symm
  · intro h
    unfold search_transactions load_transactions
    rw [List.filter_congr (fun t _ => matchRow_all_unrecognized t criteria h)]
    simp

/-- C3 witness: searching a one-record store on the unrecognised key
`description` filters nothing and returns the whole store. -/
theorem search_ignores_unrecognized_keys_witness :
    (search_transactions [sampleIncome] [("description", "salary")]
      = search_transactions [sampleIncome]
          ([("description", "salary")].filter (fun q => q.1 ≠ "description"))) ∧
    search_transactions [sampleIncome] [("description", "salary")]
      = [sampleIncome] :=
  ⟨(search_ignores_unrecognized_keys [sampleIncome]
      [("description", "salary")]).1 "description" (by decide) (by decide)
      (by decide),
   (search_ignores_unrecognized_keys [sampleIncome]
      [("description", "salary")]).2 (by decide)⟩

/-- C7: a single-field criteria over a recognised field returns exactly the
records whose field is string-equal to the value, in stored order (the
result is the order-preserving filter of the store), and an empty list —
the function always returns its accumulated list, never `None` — when no
record matches. -/
theorem search_single_field_exact (rows : List Row) (v : String) :
    search_transactions rows [("date", v)]
      = rows.filter (fun t => t.date = v) ∧
    search_transactions rows [("category", v)]
      = rows.filter (fun t => t.category = v) ∧
    search_transactions rows [("amount", v)]
      = rows.filter (fun t => t.amount = v) ∧
    ((∀ t ∈ rows, t.category ≠ v) →
      search_transactions rows [("category", v)] = ([] : List Row)) := by
  refine ⟨?_, ?_, ?_, ?_⟩
  · exact List.filter_congr fun t _ => by
      by_cases h : t.date = v <;> simp [matchRow, h]
  · exact List.filter_congr fun t _ => by
      by_cases h : t.category = v <;> simp [matchRow, h]
  · exact List.filter_congr fun t _ => by
      by_cases h : t.amount = v <;> simp [matchRow, h]
  · intro h
    unfold search_transactions load_transactions
    rw [List.filter_eq_nil_iff]
    intro t ht
    simp [matchRow, h t ht]

/-- C7 witness: searching the Income/Expense/Income store for an absent
category returns the empty list. -/
theorem search_single_field_exact_witness :
    search_transactions [sampleIncome, sampleExpense, sampleIncome]
      [("category", "Прочее")] = ([] : List Row) :=
  (search_single_field_exact [sampleIncome, sampleExpense, sampleIncome]
    "Прочее").2.2.2 (by decide)

end FinanceLedger
